import Mathlib

/-!
# Verification of the transaction normalization layer

Shallow embedding of the transaction normalizer of this repository:
the library copy (`normalizeTransactionsFromOutput` and its helpers) and
the duplicated copy embedded in the transaction-summary component
(namespace `TransactionSummary`). JavaScript values are modelled by the
inductive type `JValue`; JavaScript numbers are modelled as integers
(every modelled number is finite), strings as Lean strings, `undefined`
and `null` as explicit constructors. Nullish coalescing (`??`),
truthiness and property access are modelled by `jor`, `JValue.truthy`
and `JValue.get`.
-/

/-- Whitespace characters recognised by the modelled JavaScript
`String.prototype.trim`. -/
def isWs (c : Char) : Bool :=
  c == ' ' || c == '\t' || c == '\n' || c == '\r'

/-- Drop trailing whitespace from a character list. -/
def dropTrail : List Char → List Char
  | [] => []
  | c :: rest =>
    match dropTrail rest with
    | [] => if isWs c then [] else [c]
    | r => c :: r

/-- Trim both ends of a character list. -/
def trimList (l : List Char) : List Char :=
  dropTrail (l.dropWhile isWs)

/-- Models JavaScript `s.trim()`. -/
def jsTrim (s : String) : String :=
  String.mk (trimList s.data)

/-- ASCII lower-casing of one character, modelling the behaviour of
JavaScript `toLowerCase` on the status tokens that occur in the code. -/
def charToLower : Char → Char
  | 'A' => 'a' | 'B' => 'b' | 'C' => 'c' | 'D' => 'd' | 'E' => 'e'
  | 'F' => 'f' | 'G' => 'g' | 'H' => 'h' | 'I' => 'i' | 'J' => 'j'
  | 'K' => 'k' | 'L' => 'l' | 'M' => 'm' | 'N' => 'n' | 'O' => 'o'
  | 'P' => 'p' | 'Q' => 'q' | 'R' => 'r' | 'S' => 's' | 'T' => 't'
  | 'U' => 'u' | 'V' => 'v' | 'W' => 'w' | 'X' => 'x' | 'Y' => 'y'
  | 'Z' => 'z'
  | c => c

/-- Models JavaScript `s.toLowerCase()`. -/
def jsToLower (s : String) : String :=
  String.mk (s.data.map charToLower)

/-- A JSON-like JavaScript value. `undefined` models `undefined`;
numbers are modelled as integers. -/
inductive JValue where
  | undefined
  | null
  | bool (b : Bool)
  | num (n : Int)
  | str (s : String)
  | arr (elems : List JValue)
  | obj (fields : List (String × JValue))

/-- Property access `v[k]` for the string keys used by the normalizer:
a lookup on an object, `undefined` on everything else (in particular on
arrays, whose named properties used here are all absent). -/
def JValue.get : JValue → String → JValue
  | .obj fields, k =>
    match fields.find? (fun p => p.1 == k) with
    | some p => p.2
    | none => .undefined
  | _, _ => .undefined

/-- Is the value `null` or `undefined` (the values skipped by `??`)? -/
def JValue.isNullish : JValue → Bool
  | .undefined => true
  | .null => true
  | _ => false

/-- Models the JavaScript nullish-coalescing operator `a ?? b`. -/
def jor (a b : JValue) : JValue :=
  if a.isNullish then b else a

/-- JavaScript truthiness (no NaN in the model: numbers are integers). -/
def JValue.truthy : JValue → Bool
  | .undefined => false
  | .null => false
  | .bool b => b
  | .num n => n != 0
  | .str s => s ≠ ""
  | .arr _ => true
  | .obj _ => true

/-- Models `typeof value === "object" && value !== null` (arrays are
objects in JavaScript). -/
def isRecord : JValue → Bool
  | .obj _ => true
  | .arr _ => true
  | _ => false

/-- Is the value an array? -/
def JValue.isArr : JValue → Bool
  | .arr _ => true
  | _ => false

/-- Is the value a string? -/
def JValue.isStr : JValue → Bool
  | .str _ => true
  | _ => false

/-- The element list of an array value. -/
def JValue.arrElems : JValue → List JValue
  | .arr elems => elems
  | _ => []

/-- Models `getRecord`: the value itself when it is a record, else absent. -/
def getRecord (v : JValue) : Option JValue :=
  if isRecord v then some v else none

/-- Optional-chaining property access `o?.k`. -/
def optGet (o : Option JValue) (k : String) : JValue :=
  match o with
  | some v => v.get k
  | none => .undefined

/-- First defined value, modelling `x ?? y` on already-extracted
optional results. -/
def orO {α : Type} (a b : Option α) : Option α :=
  match a with
  | some x => some x
  | none => b

/-- Models `asString`: a trimmed string when the value is a string whose
trim is non-empty, else absent. -/
def asString (v : JValue) : Option String :=
  match v with
  | .str s => if jsTrim s = "" then none else some (jsTrim s)
  | _ => none

/-- Models the host JavaScript `Number()` conversion applied to a
non-blank string. Model restriction: only decimal integer spellings
convert (the repository's string-encoded amounts are integers). -/
def jsStrToNumber (s : String) : Option Int :=
  (jsTrim s).toInt?

/-- Models `asNumber`: a finite number as-is (all modelled numbers are
finite), a non-blank string through `Number()`, anything else absent. -/
def asNumber (v : JValue) : Option Int :=
  match v with
  | .num n => some n
  | .str s => if jsTrim s = "" then none else jsStrToNumber s
  | _ => none

/-- Models `toId`: strings and numbers are coerced with `String()`
(no trimming), anything else yields no id. -/
def toId (v : JValue) : Option String :=
  match v with
  | .str s => some s
  | .num n => some (toString n)
  | _ => none

/-- The four canonical statuses. -/
inductive NormalizedStatus where
  | success
  | failed
  | abandoned
  | other
deriving Repr, DecidableEq

/-- Status tokens classified as `success`. -/
def successSet : List String := ["success", "successful"]

/-- Status tokens classified as `failed`. -/
def failedSet : List String := ["failed", "failure", "error"]

/-- Status tokens classified as `abandoned`. -/
def abandonedSet : List String :=
  ["abandoned", "cancelled", "canceled", "timeout", "timed out", "expired"]

/-- Models `normalizeStatus` (the `if (!value)` guard makes both an
absent and an empty status fall to `other`). -/
def normalizeStatus (value : Option String) : NormalizedStatus :=
  match value with
  | none => .other
  | some v =>
    if v = "" then .other
    else
      let status := jsToLower v
      if status ∈ successSet then .success
      else if status ∈ failedSet then .failed
      else if status ∈ abandonedSet then .abandoned
      else .other

/-- The canonical transaction of the library module. -/
structure NormalizedTransaction where
  id : Option String
  status : NormalizedStatus
  rawStatus : Option String
  customerName : Option String
  customerEmail : Option String
  failureReason : Option String
  gatewayResponse : Option String
  amount : Option Int
  currency : Option String
  createdAt : Option String
deriving Repr, DecidableEq

/-- The aggregate metadata of the library module. -/
structure TransactionMeta where
  total : Option Int
  totalVolume : Option Int
  currency : Option String
  message : Option String
  page : Option Int
  perPage : Option Int
  pageCount : Option Int
deriving Repr, DecidableEq

/-- The result of the library normalizer. -/
structure NormalizedTransactionResult where
  transactions : List NormalizedTransaction
  meta : TransactionMeta
deriving Repr, DecidableEq

/-- Models `buildName`: join the defined, non-empty name parts with one
space and trim, else the trimmed fallback when non-empty. -/
def buildName (firstName lastName fallback : Option String) : Option String :=
  let parts := [firstName, lastName].filterMap
    (fun o => match o with
      | some s => if s = "" then none else some s
      | none => none)
  if parts ≠ [] then some (jsTrim (String.intercalate " " parts))
  else
    match fallback with
    | some f => if jsTrim f = "" then none else some (jsTrim f)
    | none => none

/-- The per-element scan of `log.errors` for a mapping element with a
`message`/`detail`/`description` field. -/
def scanLogErrors (es : List JValue) : Option String :=
  (es.map (fun e =>
    if isRecord e then
      asString (jor (e.get "message") (jor (e.get "detail") (e.get "description")))
    else none)).findSome? id

/-- Models `extractErrorFromLog`: prefer a truthy plain-string element
of `log.errors`, else the first mapping element with a message-like
field, else `log.message`. -/
def extractErrorFromLog (log : JValue) : Option String :=
  if isRecord log then
    match log.get "errors" with
    | .arr es =>
      match es.find? JValue.isStr with
      | some (.str s) =>
        if s ≠ "" then some s
        else
          match scanLogErrors es with
          | some m => some m
          | none => asString (log.get "message")
      | _ =>
        match scanLogErrors es with
        | some m => some m
        | none => asString (log.get "message")
    | _ => asString (log.get "message")
  else none

/-- Models the library `normalizeTransaction`: non-records yield no
transaction; records are reduced through the fallback chains. -/
def normalizeTransaction (entry : JValue) : Option NormalizedTransaction :=
  if isRecord entry then
    let rawStatus := asString
      (jor (entry.get "status") (jor (entry.get "state") (entry.get "current_status")))
    let customer := orO (getRecord (entry.get "customer"))
      (orO (getRecord (entry.get "customer_data")) (getRecord (entry.get "customerDetails")))
    let authorization := getRecord (entry.get "authorization")
    let metadata := getRecord (entry.get "metadata")
    let customerName := orO
      (buildName
        (asString (jor (entry.get "first_name") (optGet customer "first_name")))
        (asString (jor (entry.get "last_name") (optGet customer "last_name")))
        (asString (jor (optGet customer "name")
          (jor (entry.get "customer_name")
            (jor (entry.get "customerName") (entry.get "name"))))))
      (asString (optGet authorization "account_name"))
    let customerEmail := orO (asString (optGet customer "email"))
      (orO (asString (jor (entry.get "customer_email")
          (jor (entry.get "email") (entry.get "customerEmail"))))
        (orO (asString (optGet authorization "email"))
          (asString (optGet metadata "email"))))
    let gatewayResponse := asString
      (jor (entry.get "gateway_response") (entry.get "gatewayResponse"))
    let failureReason := orO gatewayResponse
      (orO (asString (jor (entry.get "failure_reason") (entry.get "failureReason")))
        (orO (asString (jor (entry.get "reason") (entry.get "status_reason")))
          (extractErrorFromLog (entry.get "log"))))
    let idValue := jor (entry.get "id")
      (jor (entry.get "reference")
        (jor (entry.get "transaction_id") (entry.get "transactionId")))
    some
      { id := toId idValue
        status := normalizeStatus rawStatus
        rawStatus := rawStatus.map jsToLower
        customerName := customerName
        customerEmail := customerEmail
        failureReason := failureReason
        gatewayResponse := gatewayResponse
        amount := asNumber (jor (entry.get "amount") (entry.get "amount_in_minor"))
        currency := asString (entry.get "currency")
        createdAt := asString (jor (entry.get "createdAt") (entry.get "created_at")) }
  else none

/-- Truthiness of an extracted optional string. -/
def truthyStrOpt (o : Option String) : Bool :=
  match o with
  | some s => s ≠ ""
  | none => false

/-- Truthiness of an extracted optional number. -/
def truthyNumOpt (o : Option Int) : Bool :=
  match o with
  | some n => n ≠ 0
  | none => false

/-- Models `sumAmounts`: the reduce over `amount ?? 0`, returned only
when strictly positive. -/
def sumAmounts (transactions : List NormalizedTransaction) : Option Int :=
  let total := transactions.foldl (fun acc txn => acc + txn.amount.getD 0) 0
  if total > 0 then some total else none

/-- Models `inferCurrency`: the currency of the first transaction whose
currency is truthy. -/
def inferCurrency (transactions : List NormalizedTransaction) : Option String :=
  match transactions.find? (fun txn => truthyStrOpt txn.currency) with
  | some txn => txn.currency
  | none => none

/-- The fixed candidate keys probed for a transactions array. -/
def possibleKeys : List String :=
  ["transactions", "data", "items", "records", "results"]

/-- Models `extractTransactionArrays`. -/
def extractTransactionArrays (data : JValue) : List JValue :=
  if data.truthy then
    match data with
    | .arr _ => [data]
    | .obj _ => (possibleKeys.map (data.get ·)).filter JValue.isArr
    | _ => []
  else []

/-- Models `isTransactionPayload`: a record whose `data` property is an
array. -/
def isTransactionPayload (v : JValue) : Bool :=
  isRecord v && (v.get "data").isArr

/-- Models the library `normalizeTransactionsFromOutput`. -/
def normalizeTransactionsFromOutput (data : JValue) : NormalizedTransactionResult :=
  if isTransactionPayload data then
    let transactions := (data.get "data").arrElems.filterMap normalizeTransaction
    let metaRecord := getRecord (data.get "meta")
    let currency0 := asString (optGet metaRecord "currency")
    let totalVolume0 := asNumber
      (jor (optGet metaRecord "total_volume") (optGet metaRecord "total_volume_in_minor"))
    { transactions := transactions
      meta :=
        { total := orO (asNumber (optGet metaRecord "total"))
            (some (Int.ofNat transactions.length))
          totalVolume :=
            if truthyNumOpt totalVolume0 then totalVolume0
            else sumAmounts transactions
          currency :=
            if truthyStrOpt currency0 then currency0
            else inferCurrency transactions
          message := asString (data.get "message")
          page := asNumber (optGet metaRecord "page")
          perPage := asNumber (optGet metaRecord "per_page")
          pageCount := asNumber (optGet metaRecord "page_count") } }
  else
    let candidates := extractTransactionArrays data
    let source := candidates.find? JValue.isArr
    let transactions := ((source.getD (.arr [])).arrElems).filterMap normalizeTransaction
    let record := getRecord data
    let recordMeta := getRecord (optGet record "meta")
    let totalVolume0 := asNumber
      (jor (optGet recordMeta "total_volume") (optGet record "total_volume"))
    { transactions := transactions
      meta :=
        { total := orO
            (asNumber (jor (optGet recordMeta "total") (optGet record "total")))
            (some (Int.ofNat transactions.length))
          totalVolume :=
            if truthyNumOpt totalVolume0 then totalVolume0
            else sumAmounts transactions
          currency := orO
            (asString (jor (optGet recordMeta "currency") (optGet record "currency")))
            (inferCurrency transactions)
          message := asString (optGet record "message")
          page := none
          perPage := none
          pageCount := none } }

/-- Models `formatCurrencyAmount`. The host `Intl.NumberFormat`
formatters and `toLocaleString` are environment behaviour, modelled as
parameters; a formatter returning `none` models a thrown `RangeError`
caught by the surrounding `try`. -/
def formatCurrencyAmount (intlCurrency : String → Int → Option String)
    (intlDecimal : Int → Option String) (toLocaleString : Int → String)
    (value : Int) (currency : Option String) : String :=
  match currency with
  | some c =>
    if c ≠ "" then
      match intlCurrency c value with
      | some s => s
      | none => c ++ " " ++ toLocaleString value
    else
      match intlDecimal value with
      | some s => s
      | none => toLocaleString value
  | none =>
    match intlDecimal value with
    | some s => s
    | none => toLocaleString value

namespace TransactionSummary

/-- The canonical transaction declared by the transaction-summary
component (no `gatewayResponse` field). -/
structure NormalizedTransaction where
  id : Option String
  status : NormalizedStatus
  rawStatus : Option String
  customerName : Option String
  customerEmail : Option String
  failureReason : Option String
  amount : Option Int
  currency : Option String
  createdAt : Option String
deriving Repr, DecidableEq

/-- The aggregate metadata declared by the component (no pagination
fields). -/
structure TransactionMeta where
  total : Option Int
  totalVolume : Option Int
  currency : Option String
  message : Option String
deriving Repr, DecidableEq

/-- The result of the component's duplicated normalizer. -/
structure NormalizedTransactionResult where
  transactions : List NormalizedTransaction
  meta : TransactionMeta
deriving Repr, DecidableEq

/-- Models the component's duplicated `normalizeTransaction`. It
differs from the library copy in the name-part precedence
(`customer?.first_name ?? entry.first_name`, nested-first) and in the
email chain (no `entry.customerEmail` candidate); the helpers it calls
(`asString`, `normalizeStatus`, `buildName`, `extractErrorFromLog`,
`asNumber`, `toId`) are character-identical duplicates of the library
ones and are shared in this embedding. -/
def normalizeTransaction (entry : JValue) : Option NormalizedTransaction :=
  if isRecord entry then
    let rawStatus := asString
      (jor (entry.get "status") (jor (entry.get "state") (entry.get "current_status")))
    let customer := orO (getRecord (entry.get "customer"))
      (orO (getRecord (entry.get "customer_data")) (getRecord (entry.get "customerDetails")))
    let authorization := getRecord (entry.get "authorization")
    let metadata := getRecord (entry.get "metadata")
    let customerName := orO
      (buildName
        (asString (jor (optGet customer "first_name") (entry.get "first_name")))
        (asString (jor (optGet customer "last_name") (entry.get "last_name")))
        (asString (jor (optGet customer "name")
          (jor (entry.get "customer_name")
            (jor (entry.get "customerName") (entry.get "name"))))))
      (asString (optGet authorization "account_name"))
    let customerEmail := orO (asString (optGet customer "email"))
      (orO (asString (jor (entry.get "customer_email") (entry.get "email")))
        (orO (asString (optGet authorization "email"))
          (asString (optGet metadata "email"))))
    let failureReason := orO
      (asString (jor (entry.get "gateway_response") (entry.get "gatewayResponse")))
      (orO (asString (jor (entry.get "failure_reason") (entry.get "failureReason")))
        (orO (asString (jor (entry.get "reason") (entry.get "status_reason")))
          (extractErrorFromLog (entry.get "log"))))
    let idValue := jor (entry.get "id")
      (jor (entry.get "reference")
        (jor (entry.get "transaction_id") (entry.get "transactionId")))
    some
      { id := toId idValue
        status := normalizeStatus rawStatus
        rawStatus := rawStatus.map jsToLower
        customerName := customerName
        customerEmail := customerEmail
        failureReason := failureReason
        amount := asNumber (jor (entry.get "amount") (entry.get "amount_in_minor"))
        currency := asString (entry.get "currency")
        createdAt := asString (jor (entry.get "createdAt") (entry.get "created_at")) }
  else none

/-- The component's duplicated `sumAmounts` (character-identical body,
over the component's transaction type). -/
def sumAmounts (transactions : List NormalizedTransaction) : Option Int :=
  let total := transactions.foldl (fun acc txn => acc + txn.amount.getD 0) 0
  if total > 0 then some total else none

/-- The component's duplicated `inferCurrency`. -/
def inferCurrency (transactions : List NormalizedTransaction) : Option String :=
  match transactions.find? (fun txn => truthyStrOpt txn.currency) with
  | some txn => txn.currency
  | none => none

/-- Models the component's duplicated `normalizeTransactionsFromOutput`.
It differs from the library copy in the envelope branch: `totalVolume`
reads only `meta.total_volume` (no `total_volume_in_minor` fallback)
and no pagination fields are produced. The shape-discovery helpers
(`isTransactionPayload`, `extractTransactionArrays`) are
character-identical duplicates and are shared in this embedding. -/
def normalizeTransactionsFromOutput (data : JValue) : NormalizedTransactionResult :=
  if isTransactionPayload data then
    let transactions := (data.get "data").arrElems.filterMap normalizeTransaction
    let metaRecord := getRecord (data.get "meta")
    let currency0 := asString (optGet metaRecord "currency")
    let totalVolume0 := asNumber (optGet metaRecord "total_volume")
    { transactions := transactions
      meta :=
        { total := orO (asNumber (optGet metaRecord "total"))
            (some (Int.ofNat transactions.length))
          totalVolume :=
            if truthyNumOpt totalVolume0 then totalVolume0
            else sumAmounts transactions
          currency :=
            if truthyStrOpt currency0 then currency0
            else inferCurrency transactions
          message := asString (data.get "message") } }
  else
    let candidates := extractTransactionArrays data
    let source := candidates.find? JValue.isArr
    let transactions := ((source.getD (.arr [])).arrElems).filterMap normalizeTransaction
    let record := getRecord data
    let recordMeta := getRecord (optGet record "meta")
    let totalVolume0 := asNumber
      (jor (optGet recordMeta "total_volume") (optGet record "total_volume"))
    { transactions := transactions
      meta :=
        { total := orO
            (asNumber (jor (optGet recordMeta "total") (optGet record "total")))
            (some (Int.ofNat transactions.length))
          totalVolume :=
            if truthyNumOpt totalVolume0 then totalVolume0
            else sumAmounts transactions
          currency := orO
            (asString (jor (optGet recordMeta "currency") (optGet record "currency")))
            (inferCurrency transactions)
          message := asString (optGet record "message") } }

end TransactionSummary

/-! ## Toolkit: whitespace trimming and option chains -/

lemma orO_some {α : Type} (x : α) (b : Option α) : orO (some x) b = some x := rfl

lemma orO_none {α : Type} (b : Option α) : orO none b = b := rfl

lemma orO_isSome_right {α : Type} (a : Option α) (x : α) :
    (orO a (some x)).isSome = true := by
  cases a <;> rfl


lemma dropWhile_length_le (p : Char → Bool) (l : List Char) :
    (l.dropWhile p).length ≤ l.length := by
  induction l with
  | nil => simp
  | cons c rest ih =>
    rw [List.dropWhile_cons]
    by_cases hc : p c
    · rw [if_pos hc]; exact Nat.le_succ_of_le ih
    · rw [if_neg hc]

lemma dropTrail_cons (c : Char) (rest : List Char) :
    dropTrail (c :: rest) =
      if dropTrail rest = [] then (if isWs c then [] else [c])
      else c :: dropTrail rest := by
  simp only [dropTrail]
  cases hd : dropTrail rest with
  | nil => simp
  | cons x xs => simp

lemma dropTrail_length_le (l : List Char) : (dropTrail l).length ≤ l.length := by
  induction l with
  | nil => simp [dropTrail]
  | cons c rest ih =>
    rw [dropTrail_cons]
    by_cases hd : dropTrail rest = []
    · by_cases hc : isWs c <;> simp [hd, hc]
    · simpa [hd] using Nat.succ_le_succ ih

lemma dropWhile_length_eq {p : Char → Bool} {l : List Char}
    (h : (l.dropWhile p).length = l.length) : l.dropWhile p = l := by
  induction l with
  | nil => rfl
  | cons c rest ih =>
    rw [List.dropWhile_cons] at h ⊢
    by_cases hc : p c
    · exfalso
      rw [if_pos hc] at h
      have := dropWhile_length_le p rest
      simp at h
      omega
    · rw [if_neg hc]

lemma dropTrail_length_eq {l : List Char} (h : (dropTrail l).length = l.length) :
    dropTrail l = l := by
  induction l with
  | nil => rfl
  | cons c rest ih =>
    rw [dropTrail_cons] at h ⊢
    by_cases hd : dropTrail rest = []
    · rw [if_pos hd] at h ⊢
      by_cases hc : isWs c
      · rw [if_pos hc] at h; simp at h
      · rw [if_neg hc] at h ⊢
        simp at h
        rw [h]
    · rw [if_neg hd] at h ⊢
      simp only [List.length_cons] at h
      rw [ih (by omega)]

lemma trimList_parts {l : List Char} (h : trimList l = l) :
    l.dropWhile isWs = l ∧ dropTrail l = l := by
  unfold trimList at h
  have h1 : (l.dropWhile isWs).length ≤ l.length := dropWhile_length_le isWs l
  have h2 : (dropTrail (l.dropWhile isWs)).length ≤ (l.dropWhile isWs).length :=
    dropTrail_length_le _
  have hlen : (dropTrail (l.dropWhile isWs)).length = l.length := by rw [h]
  have hw : l.dropWhile isWs = l := dropWhile_length_eq (by omega)
  refine ⟨hw, ?_⟩
  rw [hw] at h
  exact h

lemma dropTrail_append {la lb : List Char} (hb : dropTrail lb = lb) (hbne : lb ≠ []) :
    dropTrail (la ++ lb) = la ++ lb := by
  induction la with
  | nil => simpa using hb
  | cons c la' ih =>
    have hstep : (c :: la') ++ lb = c :: (la' ++ lb) := rfl
    rw [hstep, dropTrail_cons, ih]
    have hne : la' ++ lb ≠ [] := by
      intro hx
      exact hbne (List.append_eq_nil.mp hx).2
    rw [if_neg hne]

lemma dropWhile_append_head {la lb : List Char} (ha : la.dropWhile isWs = la)
    (hane : la ≠ []) : (la ++ lb).dropWhile isWs = la ++ lb := by
  cases la with
  | nil => exact absurd rfl hane
  | cons c la' =>
    rw [List.dropWhile_cons] at ha
    by_cases hc : isWs c
    · exfalso
      rw [if_pos hc] at ha
      have hle := dropWhile_length_le isWs la'
      have := congrArg List.length ha
      simp at this
      omega
    · have hstep : (c :: la') ++ lb = c :: (la' ++ lb) := rfl
      rw [hstep, List.dropWhile_cons, if_neg hc]

lemma trimList_append_space {la lb : List Char}
    (ha : trimList la = la) (hane : la ≠ [])
    (hb : trimList lb = lb) (hbne : lb ≠ []) :
    trimList (la ++ ' ' :: lb) = la ++ ' ' :: lb := by
  obtain ⟨haw, _⟩ := trimList_parts ha
  obtain ⟨_, hbt⟩ := trimList_parts hb
  unfold trimList
  rw [dropWhile_append_head haw hane]
  have hassoc : la ++ ' ' :: lb = (la ++ [' ']) ++ lb := by simp
  rw [hassoc, dropTrail_append hbt hbne]

lemma dropTrail_idem (l : List Char) : dropTrail (dropTrail l) = dropTrail l := by
  induction l with
  | nil => rfl
  | cons c rest ih =>
    rw [dropTrail_cons]
    by_cases hd : dropTrail rest = []
    · rw [if_pos hd]
      by_cases hc : isWs c <;> simp [hc, dropTrail]
    · rw [if_neg hd, dropTrail_cons, ih, if_neg hd]

lemma dropWhile_isWs_idem (l : List Char) :
    (l.dropWhile isWs).dropWhile isWs = l.dropWhile isWs := by
  induction l with
  | nil => rfl
  | cons c rest ih =>
    rw [List.dropWhile_cons]
    by_cases hc : isWs c
    · rw [if_pos hc]; exact ih
    · rw [if_neg hc, List.dropWhile_cons, if_neg hc]

lemma dropTrail_head (c : Char) (m : List Char) :
    dropTrail (c :: m) = [] ∨ ∃ r, dropTrail (c :: m) = c :: r := by
  rw [dropTrail_cons]
  by_cases hd : dropTrail m = []
  · by_cases hc : isWs c
    · left; simp [hd, hc]
    · right; exact ⟨[], by simp [hd, hc]⟩
  · right; exact ⟨dropTrail m, by simp [hd]⟩

lemma dropWhile_dropTrail {m : List Char} (h : m.dropWhile isWs = m) :
    (dropTrail m).dropWhile isWs = dropTrail m := by
  cases m with
  | nil => rfl
  | cons c m' =>
    rw [List.dropWhile_cons] at h
    by_cases hc : isWs c
    · exfalso
      rw [if_pos hc] at h
      have hle := dropWhile_length_le isWs m'
      have := congrArg List.length h
      simp at this
      omega
    · rcases dropTrail_head c m' with hnil | ⟨r, hr⟩
      · rw [hnil]; rfl
      · rw [hr, List.dropWhile_cons, if_neg hc]

lemma trimList_idem (l : List Char) : trimList (trimList l) = trimList l := by
  unfold trimList
  rw [dropWhile_dropTrail (dropWhile_isWs_idem l), dropTrail_idem]

lemma jsTrim_idem (s : String) : jsTrim (jsTrim s) = jsTrim s := by
  show String.mk (trimList (trimList s.data)) = String.mk (trimList s.data)
  exact congrArg String.mk (trimList_idem s.data)

lemma string_eq_empty_iff_data {s : String} : s = "" ↔ s.data = [] := by
  constructor
  · intro h; rw [h]
  · intro h; exact String.ext h

/-- A clean optional string: absent, or non-empty with no surrounding
whitespace. -/
def cleanOpt (o : Option String) : Prop :=
  ∀ s, o = some s → jsTrim s = s ∧ s ≠ ""

lemma asString_clean (v : JValue) : cleanOpt (asString v) := by
  intro s h
  cases v <;> simp [asString] at h
  rename_i s'
  obtain ⟨he, hs⟩ := h
  rw [← hs]
  exact ⟨jsTrim_idem s', he⟩

lemma orO_clean {a b : Option String} (ha : cleanOpt a) (hb : cleanOpt b) :
    cleanOpt (orO a b) := by
  intro s h
  cases a with
  | none => exact hb s h
  | some x => exact ha s h

/-- The upper-case ASCII letters, the characters `charToLower` moves. -/
def upperChars : List Char :=
  ['A', 'B', 'C', 'D', 'E', 'F', 'G', 'H', 'I', 'J', 'K', 'L', 'M',
   'N', 'O', 'P', 'Q', 'R', 'S', 'T', 'U', 'V', 'W', 'X', 'Y', 'Z']

lemma charToLower_eq_self {c : Char} (h : c ∉ upperChars) : charToLower c = c := by
  unfold charToLower
  split <;> first | rfl | (exfalso; simp [upperChars] at h)

lemma charToLower_idem (c : Char) : charToLower (charToLower c) = charToLower c := by
  by_cases h : c ∈ upperChars
  · fin_cases h <;> rfl
  · rw [charToLower_eq_self h, charToLower_eq_self h]

lemma isWs_charToLower (c : Char) : isWs (charToLower c) = isWs c := by
  by_cases h : c ∈ upperChars
  · fin_cases h <;> rfl
  · rw [charToLower_eq_self h]

lemma jsToLower_idem (s : String) : jsToLower (jsToLower s) = jsToLower s := by
  apply String.ext
  show (s.data.map charToLower).map charToLower = s.data.map charToLower
  rw [List.map_map]
  have hfun : charToLower ∘ charToLower = charToLower := funext charToLower_idem
  rw [hfun]

lemma jsToLower_eq_empty {s : String} : jsToLower s = "" ↔ s = "" := by
  rw [string_eq_empty_iff_data, string_eq_empty_iff_data]
  show s.data.map charToLower = [] ↔ s.data = []
  exact List.map_eq_nil

lemma dropWhile_isWs_map (l : List Char) :
    (l.map charToLower).dropWhile isWs = (l.dropWhile isWs).map charToLower := by
  induction l with
  | nil => rfl
  | cons c rest ih =>
    rw [List.map_cons, List.dropWhile_cons, List.dropWhile_cons, isWs_charToLower]
    by_cases hc : isWs c
    · rw [if_pos hc, if_pos hc, ih]
    · rw [if_neg hc, if_neg hc, List.map_cons]

lemma dropTrail_map (l : List Char) :
    dropTrail (l.map charToLower) = (dropTrail l).map charToLower := by
  induction l with
  | nil => rfl
  | cons c rest ih =>
    rw [List.map_cons, dropTrail_cons, dropTrail_cons, ih]
    by_cases hd : dropTrail rest = []
    · rw [hd]
      simp [isWs_charToLower]
      by_cases hc : isWs c <;> simp [hc]
    · have hd' : (dropTrail rest).map charToLower ≠ [] := by
        simpa [List.map_eq_nil] using hd
      rw [if_neg hd', if_neg hd, List.map_cons]

lemma jsTrim_jsToLower (s : String) : jsTrim (jsToLower s) = jsToLower (jsTrim s) := by
  apply String.ext
  show trimList (s.data.map charToLower) = (trimList s.data).map charToLower
  unfold trimList
  rw [dropWhile_isWs_map, dropTrail_map]

lemma clean_jsToLower {s : String} (h1 : jsTrim s = s) (h2 : s ≠ "") :
    jsTrim (jsToLower s) = jsToLower s ∧ jsToLower s ≠ "" := by
  constructor
  · rw [jsTrim_jsToLower, h1]
  · intro hx
    exact h2 (jsToLower_eq_empty.mp hx)

lemma map_clean_jsToLower {o : Option String} (h : cleanOpt o) :
    cleanOpt (o.map jsToLower) := by
  intro s hs
  cases o with
  | none => simp at hs
  | some x =>
    simp at hs
    obtain ⟨h1, h2⟩ := h x rfl
    rw [← hs]
    exact clean_jsToLower h1 h2

lemma string_append_ne_empty {a : String} (b : String) (ha : a ≠ "") :
    a ++ b ≠ "" := by
  intro h
  rw [string_eq_empty_iff_data, String.data_append, List.append_eq_nil] at h
  exact ha (string_eq_empty_iff_data.mpr h.1)

lemma jsTrim_append_space {a b : String}
    (ha1 : jsTrim a = a) (ha2 : a ≠ "") (hb1 : jsTrim b = b) (hb2 : b ≠ "") :
    jsTrim (a ++ " " ++ b) = a ++ " " ++ b := by
  apply String.ext
  show trimList (a ++ " " ++ b).data = (a ++ " " ++ b).data
  have hdata : (a ++ " " ++ b).data = a.data ++ ' ' :: b.data := by
    rw [String.data_append, String.data_append]
    simp
  rw [hdata]
  exact trimList_append_space
    (by have := congrArg String.data ha1; exact this)
    (by simpa using (string_eq_empty_iff_data.not.mp ha2))
    (by have := congrArg String.data hb1; exact this)
    (by simpa using (string_eq_empty_iff_data.not.mp hb2))

lemma buildName_clean {a b c : Option String}
    (ha : cleanOpt a) (hb : cleanOpt b) : cleanOpt (buildName a b c) := by
  intro s h
  unfold buildName at h
  rcases a with _ | a0 <;> rcases b with _ | b0
  all_goals simp only [List.filterMap] at h
  case none.none =>
    rcases c with _ | c0
    · exact absurd h (by simp)
    · have h' : (if jsTrim c0 = "" then (none : Option String)
          else some (jsTrim c0)) = some s := h
      by_cases hc : jsTrim c0 = ""
      · rw [if_pos hc] at h'; exact absurd h' (by simp)
      · rw [if_neg hc] at h'
        simp at h'
        rw [← h']
        exact ⟨jsTrim_idem c0, hc⟩
  case none.some =>
    obtain ⟨hb1, hb2⟩ := hb b0 rfl
    by_cases hb0 : b0 = ""
    · exact absurd hb0 hb2
    · simp only [hb0, if_neg] at h
      simp [hb0] at h
      rw [String.intercalate] at h
      simp [String.intercalate.go] at h
      rw [← h, hb1]
      exact ⟨hb1, hb2⟩
  case some.none =>
    obtain ⟨ha1, ha2⟩ := ha a0 rfl
    by_cases ha0 : a0 = ""
    · exact absurd ha0 ha2
    · simp [ha0] at h
      rw [String.intercalate] at h
      simp [String.intercalate.go] at h
      rw [← h, ha1]
      exact ⟨ha1, ha2⟩
  case some.some =>
    obtain ⟨ha1, ha2⟩ := ha a0 rfl
    obtain ⟨hb1, hb2⟩ := hb b0 rfl
    simp [ha2, hb2] at h
    rw [String.intercalate] at h
    simp [String.intercalate.go] at h
    have hj : jsTrim (a0 ++ " " ++ b0) = a0 ++ " " ++ b0 :=
      jsTrim_append_space ha1 ha2 hb1 hb2
    rw [hj] at h
    rw [← h]
    refine ⟨hj, string_append_ne_empty b0 (string_append_ne_empty " " ha2)⟩

/-! ## C1: totality and the empty-object scenario -/

/-- C1: `normalizeTransactionsFromOutput` is total on every modelled
input (it is a Lean function, so it terminates and never throws) and
always produces a well-formed result whose `meta.total` is defined; on
the empty object `{}` it yields no transactions, `total = 0`, and
undefined `totalVolume` and `currency`. -/
theorem normalize_total_and_empty_input :
    (∀ v : JValue, ((normalizeTransactionsFromOutput v).meta.total).isSome = true) ∧
    normalizeTransactionsFromOutput (.obj []) =
      { transactions := []
        meta := { total := some 0, totalVolume := none, currency := none,
                  message := none, page := none, perPage := none,
                  pageCount := none } } := by
  constructor
  · intro v
    unfold normalizeTransactionsFromOutput
    by_cases hp : isTransactionPayload v
    · rw [if_pos hp]
      exact orO_isSome_right _ _
    · rw [if_neg hp]
      exact orO_isSome_right _ _
  · rfl

/-! ## C2: total, case-insensitive status classification -/

/-- C2: `normalizeStatus` is total and case-insensitive: after
lower-casing, members of the success/failed/abandoned token sets map to
the corresponding bucket, and every other string, as well as an absent
status, maps to `other`; the classification is invariant under
lower-casing the input. -/
theorem normalizeStatus_total_classification :
    (∀ s : String, jsToLower s ∈ successSet → normalizeStatus (some s) = .success) ∧
    (∀ s : String, jsToLower s ∈ failedSet → normalizeStatus (some s) = .failed) ∧
    (∀ s : String, jsToLower s ∈ abandonedSet → normalizeStatus (some s) = .abandoned) ∧
    (∀ s : String, jsToLower s ∉ successSet → jsToLower s ∉ failedSet →
      jsToLower s ∉ abandonedSet → normalizeStatus (some s) = .other) ∧
    normalizeStatus none = .other ∧
    (∀ s : String, normalizeStatus (some s) = normalizeStatus (some (jsToLower s))) := by
  refine ⟨?_, ?_, ?_, ?_, rfl, ?_⟩
  · intro s h
    have hs : s ≠ "" := by rintro rfl; revert h; decide
    simp only [normalizeStatus]
    rw [if_neg hs, if_pos h]
  · intro s h
    have hs : s ≠ "" := by rintro rfl; revert h; decide
    simp only [normalizeStatus]
    rw [if_neg hs]
    simp only [failedSet, List.mem_cons, List.not_mem_nil, or_false] at h
    rcases h with h | h | h <;> rw [h] <;> decide
  · intro s h
    have hs : s ≠ "" := by rintro rfl; revert h; decide
    simp only [normalizeStatus]
    rw [if_neg hs]
    simp only [abandonedSet, List.mem_cons, List.not_mem_nil, or_false] at h
    rcases h with h | h | h | h | h | h <;> rw [h] <;> decide
  · intro s h1 h2 h3
    by_cases hs : s = ""
    · rw [hs]; rfl
    · simp only [normalizeStatus]
      rw [if_neg hs, if_neg h1, if_neg h2, if_neg h3]
  · intro s
    by_cases hs : s = ""
    · rw [hs]; rfl
    · have hl : jsToLower s ≠ "" := fun hx => hs (jsToLower_eq_empty.mp hx)
      simp only [normalizeStatus]
      rw [if_neg hs, if_neg hl, jsToLower_idem]

/-- Witness for C2 at concrete inputs. -/
theorem normalizeStatus_total_classification_witness :
    normalizeStatus (some "SUCCESSFUL") = .success ∧
    normalizeStatus (some "Timed Out") = .abandoned ∧
    normalizeStatus (some "pending") = .other := by
  refine ⟨?_, ?_, ?_⟩
  · exact normalizeStatus_total_classification.1 "SUCCESSFUL" (by decide)
  · exact normalizeStatus_total_classification.2.2.1 "Timed Out" (by decide)
  · exact normalizeStatus_total_classification.2.2.2.1 "pending"
      (by decide) (by decide) (by decide)

/-! ## C4 and C5: shape discovery and sequence shape -/

lemma normalizeTransaction_of_record {e : JValue} (h : isRecord e = true) :
    (normalizeTransaction e).isSome = true := by
  unfold normalizeTransaction
  rw [if_pos h]
  rfl

lemma normalizeTransaction_of_not_record {e : JValue} (h : isRecord e = false) :
    normalizeTransaction e = none := by
  unfold normalizeTransaction
  rw [h]
  rfl

lemma filterMap_normalizeTransaction_length (d : List JValue) :
    (d.filterMap normalizeTransaction).length
      + d.countP (fun e => !(isRecord e)) = d.length := by
  induction d with
  | nil => rfl
  | cons e rest ih =>
    rw [List.filterMap_cons, List.countP_cons]
    by_cases h : isRecord e
    · obtain ⟨t, ht⟩ := Option.isSome_iff_exists.mp (normalizeTransaction_of_record h)
      rw [ht]
      simp only [List.length_cons, h, Bool.not_true]
      simp
      omega
    · rw [normalizeTransaction_of_not_record (by simpa using h)]
      simp only [List.length_cons, Bool.not_eq_true] at *
      simp [h]
      omega

lemma payload_transactions {v : JValue} {d : List JValue}
    (h : v.get "data" = .arr d) :
    (normalizeTransactionsFromOutput v).transactions
      = d.filterMap normalizeTransaction := by
  have hrec : isRecord v = true := by
    cases v <;> simp [JValue.get] at h <;> rfl
  have hp : isTransactionPayload v = true := by
    simp [isTransactionPayload, hrec, h, JValue.isArr]
  unfold normalizeTransactionsFromOutput
  rw [if_pos hp, h]
  rfl

/-- C4: for envelope inputs the output sequence is the per-entry
normalization of `payload.data` in order with non-record entries
dropped, so its length is `data.length` minus the number of non-record
entries. -/
theorem envelope_transactions_shape :
    ∀ (v : JValue) (d : List JValue), v.get "data" = .arr d →
      (normalizeTransactionsFromOutput v).transactions
          = d.filterMap normalizeTransaction ∧
      (normalizeTransactionsFromOutput v).transactions.length
          = d.length - d.countP (fun e => !(isRecord e)) := by
  intro v d h
  have ht := payload_transactions h
  refine ⟨ht, ?_⟩
  rw [ht]
  have hlen := filterMap_normalizeTransaction_length d
  omega

/-- Witness for C4: an envelope with one record entry and one
non-record entry yields one transaction. -/
theorem envelope_transactions_shape_witness :
    JValue.get (.obj [("data", .arr [.obj [("status", .str "success")], .num 7])]) "data"
        = .arr [.obj [("status", .str "success")], .num 7] ∧
    (normalizeTransactionsFromOutput
        (.obj [("data", .arr [.obj [("status", .str "success")], .num 7])])).transactions.length
      = 2 - 1 := by
  refine ⟨rfl, ?_⟩
  have h := (envelope_transactions_shape
    (.obj [("data", .arr [.obj [("status", .str "success")], .num 7])])
    [.obj [("status", .str "success")], .num 7] rfl).2
  rw [h]
  decide

/-- C5: shape discovery: an object whose `data` field is an array is
processed as an envelope (even when other candidate keys hold arrays);
a bare array is used directly; otherwise the first array found probing
`transactions`, `data`, `items`, `records`, `results` in that fixed
order is used. -/
theorem shape_discovery_order :
    (∀ (v : JValue) (d : List JValue), v.get "data" = .arr d →
      (normalizeTransactionsFromOutput v).transactions
        = d.filterMap normalizeTransaction) ∧
    (∀ xs : List JValue,
      (normalizeTransactionsFromOutput (.arr xs)).transactions
        = xs.filterMap normalizeTransaction) ∧
    (∀ (v : JValue) (k : String) (a : List JValue) (pre post : List String),
      isRecord v = true → (v.get "data").isArr = false →
      possibleKeys = pre ++ k :: post →
      (∀ k' ∈ pre, ((v.get k').isArr) = false) →
      v.get k = .arr a →
      (normalizeTransactionsFromOutput v).transactions
        = a.filterMap normalizeTransaction) := by
  refine ⟨fun v d h => payload_transactions h, fun xs => rfl, ?_⟩
  intro v k a pre post hrec hdata hkeys hpre hk
  cases v with
  | obj fs =>
    have hp : isTransactionPayload (.obj fs) = false := by
      simp [isTransactionPayload, hdata]
    have hcand : (extractTransactionArrays (.obj fs)).find? JValue.isArr
        = some (.arr a) := by
      have e1 : extractTransactionArrays (.obj fs)
          = (possibleKeys.map ((JValue.obj fs).get ·)).filter JValue.isArr := rfl
      rw [e1, hkeys, List.map_append, List.map_cons, List.filter_append]
      have e2 : (pre.map ((JValue.obj fs).get ·)).filter JValue.isArr = [] := by
        rw [List.filter_eq_nil_iff]
        intro x hx
        obtain ⟨k', hk', rfl⟩ := List.mem_map.mp hx
        simp [hpre k' hk']
      have e3 : JValue.isArr ((JValue.obj fs).get k) = true := by rw [hk]; rfl
      rw [e2, List.filter_cons_of_pos e3, List.nil_append,
        List.find?_cons_of_pos _ e3, hk]
    unfold normalizeTransactionsFromOutput
    rw [hp]
    simp only [Bool.false_eq_true, if_false]
    rw [hcand]
    rfl
  | arr xs => simp [JValue.get] at hk
  | undefined => simp [isRecord] at hrec
  | null => simp [isRecord] at hrec
  | bool b => simp [isRecord] at hrec
  | num n => simp [isRecord] at hrec
  | str s => simp [isRecord] at hrec

/-- Witness for C5 at a concrete wrapper object whose `transactions`
and `items` keys hold arrays while `data` does not. -/
theorem shape_discovery_order_witness :
    isRecord (.obj [("data", .num 3), ("items", .arr [.num 1]),
        ("transactions", .arr [.obj [("id", .str "t1")]])]) = true ∧
    (normalizeTransactionsFromOutput (.obj [("data", .num 3), ("items", .arr [.num 1]),
        ("transactions", .arr [.obj [("id", .str "t1")]])])).transactions
      = [.obj [("id", .str "t1")]].filterMap normalizeTransaction := by
  refine ⟨rfl, ?_⟩
  exact shape_discovery_order.2.2
    (.obj [("data", .num 3), ("items", .arr [.num 1]),
      ("transactions", .arr [.obj [("id", .str "t1")]])])
    "transactions" [.obj [("id", .str "t1")]]
    [] ["data", "items", "records", "results"]
    rfl rfl rfl (by intro k' hk'; simp at hk') rfl

/-! ## C3: totalVolume resolution -/

lemma optGet_getRecord (x : JValue) (k : String) : optGet (getRecord x) k = x.get k := by
  by_cases h : isRecord x
  · simp [optGet, getRecord, h]
  · have hg : getRecord x = none := by simp [getRecord, h]
    rw [hg]
    cases x <;> first | rfl | (simp [isRecord] at h)

lemma foldl_amount_zero {ts : List NormalizedTransaction}
    (h : ∀ t ∈ ts, t.amount = some 0 ∨ t.amount = none) (acc : Int) :
    ts.foldl (fun a txn => a + txn.amount.getD 0) acc = acc := by
  induction ts generalizing acc with
  | nil => rfl
  | cons t rest ih =>
    have ht := h t (by simp)
    have hrest : ∀ t' ∈ rest, t'.amount = some 0 ∨ t'.amount = none :=
      fun t' h' => h t' (by simp [h'])
    rcases ht with ht | ht <;> simp [ht, ih hrest]

/-- C3 counterexample: an envelope whose gateway meta reports
`total_volume: 0` — present and numeric — normalizes to the derived sum
`500`, not the reported `0`, because the code tests the reported value
for truthiness. -/
theorem totalVolume_counterexample :
    asNumber ((JValue.get (.obj [("data", .arr [.obj [("amount", .num 500)]]),
        ("meta", .obj [("total_volume", .num 0)])]) "meta").get "total_volume")
      = some 0 ∧
    (normalizeTransactionsFromOutput (.obj [("data", .arr [.obj [("amount", .num 500)]]),
        ("meta", .obj [("total_volume", .num 0)])])).meta.totalVolume = some 500 := by
  exact ⟨rfl, by decide⟩

/-- C3 amended: `totalVolume` is the gateway-reported volume only when
that value is present, numeric and truthy (non-zero); otherwise it is
the derived sum of amounts, which is used only when strictly positive —
a batch whose amounts are all `0` or absent yields no volume. -/
theorem totalVolume_resolution :
    (∀ (v : JValue) (d : List JValue), v.get "data" = .arr d →
      (normalizeTransactionsFromOutput v).meta.totalVolume =
        (if truthyNumOpt (asNumber (jor ((v.get "meta").get "total_volume")
              ((v.get "meta").get "total_volume_in_minor")))
         then asNumber (jor ((v.get "meta").get "total_volume")
              ((v.get "meta").get "total_volume_in_minor"))
         else sumAmounts (d.filterMap normalizeTransaction))) ∧
    (∀ v : JValue, isTransactionPayload v = false →
      (normalizeTransactionsFromOutput v).meta.totalVolume =
        (if truthyNumOpt (asNumber (jor ((v.get "meta").get "total_volume")
              (v.get "total_volume")))
         then asNumber (jor ((v.get "meta").get "total_volume") (v.get "total_volume"))
         else sumAmounts (normalizeTransactionsFromOutput v).transactions)) ∧
    (∀ ts : List NormalizedTransaction,
      (∀ t ∈ ts, t.amount = some 0 ∨ t.amount = none) → sumAmounts ts = none) := by
  refine ⟨?_, ?_, ?_⟩
  · intro v d h
    have hrec : isRecord v = true := by
      cases v <;> simp [JValue.get] at h <;> rfl
    have hp : isTransactionPayload v = true := by
      simp [isTransactionPayload, hrec, h, JValue.isArr]
    unfold normalizeTransactionsFromOutput
    rw [if_pos hp, h]
    simp only [optGet_getRecord]
    rfl
  · intro v hp
    unfold normalizeTransactionsFromOutput
    rw [hp]
    simp only [Bool.false_eq_true, if_false, optGet_getRecord]
  · intro ts h
    unfold sumAmounts
    rw [foldl_amount_zero h 0]
    rfl

/-- Witness for C3's amended theorem: a zero-amount batch yields an
undefined volume. -/
theorem totalVolume_resolution_witness :
    (normalizeTransactionsFromOutput
        (.obj [("data", .arr [.obj [("amount", .num 0)]])])).meta.totalVolume = none := by
  have h := totalVolume_resolution.1
    (.obj [("data", .arr [.obj [("amount", .num 0)]])])
    [.obj [("amount", .num 0)]] rfl
  rw [h]
  decide

/-! ## C6: customer name resolution -/

/-- The customer-like sub-object, probed in order `customer`,
`customer_data`, `customerDetails` (the `customer` local of
`normalizeTransaction`). -/
def customerRecord (entry : JValue) : Option JValue :=
  orO (getRecord (entry.get "customer"))
    (orO (getRecord (entry.get "customer_data")) (getRecord (entry.get "customerDetails")))

/-- The extracted first-name part (first argument of `buildName` in
`normalizeTransaction`). -/
def firstNamePart (entry : JValue) : Option String :=
  asString (jor (entry.get "first_name") (optGet (customerRecord entry) "first_name"))

/-- The extracted last-name part (second argument of `buildName` in
`normalizeTransaction`). -/
def lastNamePart (entry : JValue) : Option String :=
  asString (jor (entry.get "last_name") (optGet (customerRecord entry) "last_name"))

lemma buildName_both {f l : String} (hf1 : jsTrim f = f) (hf2 : f ≠ "")
    (hl1 : jsTrim l = l) (hl2 : l ≠ "") (fb : Option String) :
    buildName (some f) (some l) fb = some (f ++ " " ++ l) := by
  unfold buildName
  simp only [List.filterMap_cons, List.filterMap_nil, if_neg hf2, if_neg hl2]
  simp only [ne_eq, reduceCtorEq, not_false_eq_true, if_true]
  rw [String.intercalate]
  simp [String.intercalate.go]
  exact jsTrim_append_space hf1 hf2 hl1 hl2

lemma buildName_first {f : String} (hf1 : jsTrim f = f) (hf2 : f ≠ "")
    (fb : Option String) : buildName (some f) none fb = some f := by
  unfold buildName
  simp only [List.filterMap_cons, List.filterMap_nil, if_neg hf2]
  simp only [ne_eq, reduceCtorEq, not_false_eq_true, if_true]
  rw [String.intercalate]
  simp [String.intercalate.go]
  exact hf1

lemma buildName_last {l : String} (hl1 : jsTrim l = l) (hl2 : l ≠ "")
    (fb : Option String) : buildName none (some l) fb = some l := by
  unfold buildName
  simp only [List.filterMap_cons, List.filterMap_nil, if_neg hl2]
  simp only [ne_eq, reduceCtorEq, not_false_eq_true, if_true]
  rw [String.intercalate]
  simp [String.intercalate.go]
  exact hl1

lemma buildName_fallback {fb : Option String} (hfb : cleanOpt fb) :
    buildName none none fb = fb := by
  cases fb with
  | none => rfl
  | some f =>
    obtain ⟨h1, h2⟩ := hfb f rfl
    show (if jsTrim f = "" then none else some (jsTrim f)) = some f
    rw [h1, if_neg h2]

/-- C6: a defined first/last name part (entry level falling back to the
nested customer-like object) yields the parts joined with one space,
overriding any whole-name field; with no part, the single name field is
used; failing that, `authorization.account_name`; blank-trim-aware
throughout. -/
theorem customerName_resolution :
    (∀ (e : JValue) (t : NormalizedTransaction), normalizeTransaction e = some t →
      (∀ f l, firstNamePart e = some f → lastNamePart e = some l →
        t.customerName = some (f ++ " " ++ l)) ∧
      (∀ f, firstNamePart e = some f → lastNamePart e = none →
        t.customerName = some f) ∧
      (∀ l, firstNamePart e = none → lastNamePart e = some l →
        t.customerName = some l) ∧
      (firstNamePart e = none → lastNamePart e = none →
        t.customerName = orO
          (asString (jor (optGet (customerRecord e) "name")
            (jor (e.get "customer_name") (jor (e.get "customerName") (e.get "name")))))
          (asString ((e.get "authorization").get "account_name")))) ∧
    (normalizeTransaction (.obj [("first_name", .str "Ada"), ("last_name", .str "Obi"),
        ("customer_name", .str "Zed")])).map (fun t => t.customerName)
      = some (some "Ada Obi") := by
  constructor
  · intro e t h
    have hrec : isRecord e = true := by
      by_contra hx
      rw [normalizeTransaction_of_not_record (by simpa using hx)] at h
      exact Option.noConfusion h
    unfold normalizeTransaction at h
    rw [if_pos hrec] at h
    have ht := Option.some.inj h
    subst ht
    refine ⟨?_, ?_, ?_, ?_⟩
    · intro f l hf hl
      show orO
        (buildName (firstNamePart e) (lastNamePart e)
          (asString (jor (optGet (customerRecord e) "name")
            (jor (e.get "customer_name") (jor (e.get "customerName") (e.get "name"))))))
        (asString (optGet (getRecord (e.get "authorization")) "account_name"))
          = some (f ++ " " ++ l)
      obtain ⟨hf1, hf2⟩ := asString_clean _ f hf
      obtain ⟨hl1, hl2⟩ := asString_clean _ l hl
      rw [hf, hl, buildName_both hf1 hf2 hl1 hl2]
      rfl
    · intro f hf hl
      show orO
        (buildName (firstNamePart e) (lastNamePart e)
          (asString (jor (optGet (customerRecord e) "name")
            (jor (e.get "customer_name") (jor (e.get "customerName") (e.get "name"))))))
        (asString (optGet (getRecord (e.get "authorization")) "account_name"))
          = some f
      obtain ⟨hf1, hf2⟩ := asString_clean _ f hf
      rw [hf, hl, buildName_first hf1 hf2]
      rfl
    · intro l hf hl
      show orO
        (buildName (firstNamePart e) (lastNamePart e)
          (asString (jor (optGet (customerRecord e) "name")
            (jor (e.get "customer_name") (jor (e.get "customerName") (e.get "name"))))))
        (asString (optGet (getRecord (e.get "authorization")) "account_name"))
          = some l
      obtain ⟨hl1, hl2⟩ := asString_clean _ l hl
      rw [hf, hl, buildName_last hl1 hl2]
      rfl
    · intro hf hl
      show orO
        (buildName (firstNamePart e) (lastNamePart e)
          (asString (jor (optGet (customerRecord e) "name")
            (jor (e.get "customer_name") (jor (e.get "customerName") (e.get "name"))))))
        (asString (optGet (getRecord (e.get "authorization")) "account_name"))
          = _
      rw [hf, hl, buildName_fallback (asString_clean _), optGet_getRecord]
  · rfl

/-- Witness for C6: a single first-name part yields that part,
overriding the whole-name field. -/
theorem customerName_resolution_witness :
    normalizeTransaction (.obj [("first_name", .str "Ada"), ("customer_name", .str "Zed")])
        = some { id := none, status := .other, rawStatus := none,
                 customerName := some "Ada", customerEmail := none,
                 failureReason := none, gatewayResponse := none,
                 amount := none, currency := none, createdAt := none } ∧
    ({ id := none, status := .other, rawStatus := none, customerName := some "Ada",
       customerEmail := none, failureReason := none, gatewayResponse := none,
       amount := none, currency := none,
       createdAt := none } : NormalizedTransaction).customerName = some "Ada" := by
  constructor
  · decide
  · exact ((customerName_resolution.1
      (.obj [("first_name", .str "Ada"), ("customer_name", .str "Zed")])
      _ (by decide)).2.1) "Ada" rfl rfl

/-! ## C7: failure reason chain -/

/-- C7: `failureReason` is the first defined value of the chain gateway
response text → `failure_reason`/`failureReason` → `reason`/`status_reason`
→ scan of `log.errors` (plain-string element preferred, else the first
mapping with a `message`/`detail`/`description` field) → `log.message`;
in particular an entry whose only reason-bearing field is
`log: { errors: [{ message: "card declined" }] }` yields
`failureReason = "card declined"`. -/
theorem failureReason_chain :
    (∀ (e : JValue) (t : NormalizedTransaction), normalizeTransaction e = some t →
      t.failureReason = orO
        (asString (jor (e.get "gateway_response") (e.get "gatewayResponse")))
        (orO (asString (jor (e.get "failure_reason") (e.get "failureReason")))
          (orO (asString (jor (e.get "reason") (e.get "status_reason")))
            (extractErrorFromLog (e.get "log"))))) ∧
    (normalizeTransaction (.obj [("log", .obj [("errors",
        .arr [.obj [("message", .str "card declined")]])])])).map
      (fun t => t.failureReason) = some (some "card declined") := by
  constructor
  · intro e t h
    have hrec : isRecord e = true := by
      by_contra hx
      rw [normalizeTransaction_of_not_record (by simpa using hx)] at h
      exact Option.noConfusion h
    unfold normalizeTransaction at h
    rw [if_pos hrec] at h
    have ht := Option.some.inj h
    subst ht
    rfl
  · rfl

/-- Witness for C7: the gateway response text, trimmed, wins the chain. -/
theorem failureReason_chain_witness :
    normalizeTransaction (.obj [("gateway_response", .str " declined ")])
        = some { id := none, status := .other, rawStatus := none,
                 customerName := none, customerEmail := none,
                 failureReason := some "declined", gatewayResponse := some "declined",
                 amount := none, currency := none, createdAt := none } ∧
    ({ id := none, status := .other, rawStatus := none, customerName := none,
       customerEmail := none, failureReason := some "declined",
       gatewayResponse := some "declined", amount := none, currency := none,
       createdAt := none } : NormalizedTransaction).failureReason
      = some "declined" := by
  constructor
  · decide
  · have h := failureReason_chain.1 (.obj [("gateway_response", .str " declined ")])
      { id := none, status := .other, rawStatus := none, customerName := none,
        customerEmail := none, failureReason := some "declined",
        gatewayResponse := some "declined", amount := none, currency := none,
        createdAt := none } (by decide)
    rw [h]
    decide

/-! ## C8: currency formatting never fails outward -/

/-- C8: `formatCurrencyAmount` is total (it is a Lean function over the
modelled host formatters); when the host currency formatter throws
(modelled by `none`) for a supplied non-empty currency code, the result
is the plain `"<CODE> <number>"` fallback, which contains the supplied
code; with no currency supplied the result is the decimal formatting
(or its `toLocaleString` fallback). -/
theorem formatCurrencyAmount_fallback :
    (∀ (intlCurrency : String → Int → Option String)
        (intlDecimal : Int → Option String) (toLocaleString : Int → String)
        (value : Int) (c : String),
      c ≠ "" → intlCurrency c value = none →
      formatCurrencyAmount intlCurrency intlDecimal toLocaleString value (some c)
        = c ++ " " ++ toLocaleString value) ∧
    (∀ (intlCurrency : String → Int → Option String)
        (intlDecimal : Int → Option String) (toLocaleString : Int → String)
        (value : Int),
      formatCurrencyAmount intlCurrency intlDecimal toLocaleString value none
        = (intlDecimal value).getD (toLocaleString value)) := by
  constructor
  · intro intlCurrency intlDecimal toLocaleString value c hc hfail
    have h1 : formatCurrencyAmount intlCurrency intlDecimal toLocaleString value (some c)
        = if c ≠ "" then
            (match intlCurrency c value with
              | some s => s
              | none => c ++ " " ++ toLocaleString value)
          else
            (match intlDecimal value with
              | some s => s
              | none => toLocaleString value) := rfl
    rw [h1, if_pos hc, hfail]
  · intro intlCurrency intlDecimal toLocaleString value
    unfold formatCurrencyAmount
    cases intlDecimal value <;> rfl

/-- Witness for C8: an always-throwing currency formatter (an
unrecognized code such as `"XXX"`) still yields a string containing the
code. -/
theorem formatCurrencyAmount_fallback_witness :
    formatCurrencyAmount (fun _ _ => none) (fun _ => none) (fun n => toString n)
      42 (some "XXX") = "XXX 42" := by
  have h := formatCurrencyAmount_fallback.1 (fun _ _ => none) (fun _ => none)
    (fun n => toString n) 42 "XXX" (by decide) rfl
  rw [h]
  decide

/-! ## C9: string-field hygiene invariant -/

lemma findSome?_id_mem {α : Type} {l : List (Option α)} {s : α}
    (h : l.findSome? id = some s) : some s ∈ l := by
  induction l with
  | nil => simp at h
  | cons o rest ih =>
    rw [List.findSome?_cons] at h
    cases o with
    | some x =>
      simp at h
      rw [← h]
      exact List.mem_cons_self _ _
    | none =>
      exact List.mem_cons_of_mem _ (ih h)

lemma scanLogErrors_clean (es : List JValue) : cleanOpt (scanLogErrors es) := by
  intro s h
  have hm := findSome?_id_mem (l := es.map (fun e =>
    if isRecord e then
      asString (jor (e.get "message") (jor (e.get "detail") (e.get "description")))
    else none)) h
  obtain ⟨e, _, hfe⟩ := List.mem_map.mp hm
  by_cases hr : isRecord e
  · rw [if_pos hr] at hfe
    exact asString_clean _ s hfe
  · rw [if_neg hr] at hfe
    exact Option.noConfusion hfe

lemma extractErrorFromLog_ne_empty {log : JValue} {s : String}
    (h : extractErrorFromLog log = some s) : s ≠ "" := by
  unfold extractErrorFromLog at h
  by_cases hr : isRecord log
  · rw [if_pos hr] at h
    cases hv : log.get "errors" with
    | arr es =>
      rw [hv] at h
      have tail : (match scanLogErrors es with
          | some m => some m
          | none => asString (log.get "message")) = some s → s ≠ "" := by
        intro h2
        cases hm : scanLogErrors es with
        | some m =>
          rw [hm] at h2
          have h3 : some m = some s := h2
          rw [← Option.some.inj h3]
          exact (scanLogErrors_clean es m hm).2
        | none =>
          rw [hm] at h2
          exact (asString_clean (log.get "message") s h2).2
      have h1 : (match es.find? JValue.isStr with
          | some (.str st) =>
            if st ≠ "" then some st
            else
              match scanLogErrors es with
              | some m => some m
              | none => asString (log.get "message")
          | _ =>
            match scanLogErrors es with
            | some m => some m
            | none => asString (log.get "message")) = some s := h
      cases hf : es.find? JValue.isStr with
      | some v =>
        rw [hf] at h1
        cases v with
        | str st =>
          by_cases hst : st ≠ ""
          · have h3 : (if st ≠ "" then (some st : Option String)
                else match scanLogErrors es with
                  | some m => some m
                  | none => asString (log.get "message")) = some s := h1
            rw [if_pos hst] at h3
            rw [← Option.some.inj h3]
            exact hst
          · have h3 : (if st ≠ "" then (some st : Option String)
                else match scanLogErrors es with
                  | some m => some m
                  | none => asString (log.get "message")) = some s := h1
            rw [if_neg hst] at h3
            exact tail h3
        | undefined => exact tail h1
        | null => exact tail h1
        | bool b => exact tail h1
        | num n => exact tail h1
        | arr xs => exact tail h1
        | obj fs => exact tail h1
      | none =>
        rw [hf] at h1
        exact tail h1
    | undefined => rw [hv] at h; exact (asString_clean (log.get "message") s h).2
    | null => rw [hv] at h; exact (asString_clean (log.get "message") s h).2
    | bool b => rw [hv] at h; exact (asString_clean (log.get "message") s h).2
    | num n => rw [hv] at h; exact (asString_clean (log.get "message") s h).2
    | str st => rw [hv] at h; exact (asString_clean (log.get "message") s h).2
    | obj fs => rw [hv] at h; exact (asString_clean (log.get "message") s h).2
  · rw [if_neg hr] at h
    exact Option.noConfusion h

lemma orO_ne_empty {a b : Option String}
    (ha : ∀ s, a = some s → s ≠ "") (hb : ∀ s, b = some s → s ≠ "") :
    ∀ s, orO a b = some s → s ≠ "" := by
  intro s h
  cases a with
  | none => exact hb s h
  | some x => exact ha s h

/-- C9 counterexample: a whitespace-only string `id` survives `String()`
coercion untrimmed, and a whitespace-padded plain-string element of
`log.errors` is returned verbatim as `failureReason` — both fields can
carry surrounding whitespace, contradicting the claimed invariant. -/
theorem string_fields_counterexample :
    (normalizeTransaction (.obj [("id", .str "  ")])).map (fun t => t.id)
        = some (some "  ") ∧
    jsTrim "  " ≠ "  " ∧
    (normalizeTransaction (.obj [("log", .obj [("errors", .arr [.str " boom "])])])).map
        (fun t => t.failureReason) = some (some " boom ") ∧
    jsTrim " boom " ≠ " boom " := by
  exact ⟨by decide, by decide, by decide, by decide⟩

/-- C9 amended: on every normalized entry the fields `rawStatus`,
`customerName`, `customerEmail`, `gatewayResponse`, `currency` and
`createdAt` are absent or non-empty without surrounding whitespace, and
`failureReason` is absent or non-empty (it may carry whitespace only
when taken verbatim from a plain-string `log.errors` element); `id` is
excluded: it is `String()`-coerced without trimming. -/
theorem string_fields_invariant :
    ∀ (e : JValue) (t : NormalizedTransaction), normalizeTransaction e = some t →
      cleanOpt t.rawStatus ∧ cleanOpt t.customerName ∧ cleanOpt t.customerEmail ∧
      cleanOpt t.gatewayResponse ∧ cleanOpt t.currency ∧ cleanOpt t.createdAt ∧
      (∀ s, t.failureReason = some s → s ≠ "") := by
  intro e t h
  have hrec : isRecord e = true := by
    by_contra hx
    rw [normalizeTransaction_of_not_record (by simpa using hx)] at h
    exact Option.noConfusion h
  unfold normalizeTransaction at h
  rw [if_pos hrec] at h
  have ht := Option.some.inj h
  subst ht
  refine ⟨?_, ?_, ?_, ?_, ?_, ?_, ?_⟩
  · exact map_clean_jsToLower (asString_clean _)
  · exact orO_clean
      (buildName_clean (asString_clean _) (asString_clean _)) (asString_clean _)
  · exact orO_clean (asString_clean _)
      (orO_clean (asString_clean _)
        (orO_clean (asString_clean _) (asString_clean _)))
  · exact asString_clean _
  · exact asString_clean _
  · exact asString_clean _
  · exact orO_ne_empty (fun s hs => (asString_clean _ s hs).2)
      (orO_ne_empty (fun s hs => (asString_clean _ s hs).2)
        (orO_ne_empty (fun s hs => (asString_clean _ s hs).2)
          (fun s hs => extractErrorFromLog_ne_empty hs)))

/-- Witness for C9's amended theorem at a concrete entry. -/
theorem string_fields_invariant_witness :
    normalizeTransaction (.obj [("status", .str " OK ")])
        = some { id := none, status := .other, rawStatus := some "ok",
                 customerName := none, customerEmail := none,
                 failureReason := none, gatewayResponse := none,
                 amount := none, currency := none, createdAt := none } ∧
    (cleanOpt (some "ok") ∧ cleanOpt (none : Option String) ∧
      cleanOpt (none : Option String) ∧ cleanOpt (none : Option String) ∧
      cleanOpt (none : Option String) ∧ cleanOpt (none : Option String) ∧
      (∀ s, (none : Option String) = some s → s ≠ "")) := by
  refine ⟨by decide, ?_⟩
  exact string_fields_invariant (.obj [("status", .str " OK ")])
    { id := none, status := .other, rawStatus := some "ok",
      customerName := none, customerEmail := none, failureReason := none,
      gatewayResponse := none, amount := none, currency := none,
      createdAt := none } (by decide)

/-! ## C10: the component's duplicated normalizer vs the library one -/

/-- The type of the field tuple shared by the two transaction types. -/
abbrev SharedFieldTuple :=
  Option String × NormalizedStatus × Option String × Option String ×
    Option Int × Option String × Option String

/-- The shared fields of a library transaction on which the two copies
compute identically (`customerName` and `customerEmail` excluded: the
copies differ there). -/
def sharedFields (t : NormalizedTransaction) : SharedFieldTuple :=
  (t.id, t.status, t.rawStatus, t.failureReason, t.amount, t.currency, t.createdAt)

/-- The shared fields of a component transaction. -/
def TransactionSummary.sharedFields
    (t : TransactionSummary.NormalizedTransaction) : SharedFieldTuple :=
  (t.id, t.status, t.rawStatus, t.failureReason, t.amount, t.currency, t.createdAt)

lemma sharedFields_agree (e : JValue) :
    (TransactionSummary.normalizeTransaction e).map TransactionSummary.sharedFields
      = (normalizeTransaction e).map sharedFields := by
  by_cases h : isRecord e
  · unfold normalizeTransaction TransactionSummary.normalizeTransaction
    rw [if_pos h, if_pos h]
    rfl
  · have h' : isRecord e = false := by simpa using h
    rw [normalizeTransaction_of_not_record h']
    unfold TransactionSummary.normalizeTransaction
    rw [h']
    rfl

lemma sharedFields_list_agree (es : List JValue) :
    (es.filterMap TransactionSummary.normalizeTransaction).map
        TransactionSummary.sharedFields
      = (es.filterMap normalizeTransaction).map sharedFields := by
  induction es with
  | nil => rfl
  | cons e rest ih =>
    rw [List.filterMap_cons, List.filterMap_cons]
    have he := sharedFields_agree e
    cases h1 : normalizeTransaction e with
    | none =>
      rw [h1] at he
      simp only [Option.map_none'] at he
      have h2 : TransactionSummary.normalizeTransaction e = none := by
        cases h2 : TransactionSummary.normalizeTransaction e with
        | none => rfl
        | some t => rw [h2] at he; simp at he
      rw [h2]
      exact ih
    | some t =>
      rw [h1] at he
      cases h2 : TransactionSummary.normalizeTransaction e with
      | none => rw [h2] at he; simp at he
      | some t' =>
        rw [h2] at he
        simp only [Option.map_some'] at he
        rw [List.map_cons, List.map_cons, ih]
        simp only [Option.some.injEq] at he
        rw [he]

lemma map_amount_of_shared {ts' : List TransactionSummary.NormalizedTransaction}
    {ts : List NormalizedTransaction}
    (h : ts'.map TransactionSummary.sharedFields = ts.map sharedFields) :
    ts'.map (fun t => t.amount) = ts.map (fun t => t.amount) := by
  have h2 := congrArg
    (List.map (fun p : SharedFieldTuple => p.2.2.2.2.1)) h
  rw [List.map_map, List.map_map] at h2
  exact h2

lemma map_currency_of_shared {ts' : List TransactionSummary.NormalizedTransaction}
    {ts : List NormalizedTransaction}
    (h : ts'.map TransactionSummary.sharedFields = ts.map sharedFields) :
    ts'.map (fun t => t.currency) = ts.map (fun t => t.currency) := by
  have h2 := congrArg
    (List.map (fun p : SharedFieldTuple => p.2.2.2.2.2.1)) h
  rw [List.map_map, List.map_map] at h2
  exact h2

lemma foldl_amount_congr {ts' : List TransactionSummary.NormalizedTransaction}
    {ts : List NormalizedTransaction}
    (h : ts'.map (fun t => t.amount) = ts.map (fun t => t.amount)) :
    ∀ acc : Int, ts'.foldl (fun a t => a + t.amount.getD 0) acc
      = ts.foldl (fun a t => a + t.amount.getD 0) acc := by
  induction ts' generalizing ts with
  | nil =>
    intro acc
    cases ts with
    | nil => rfl
    | cons t r => simp at h
  | cons t' r' ih =>
    intro acc
    cases ts with
    | nil => simp at h
    | cons t r =>
      simp only [List.map_cons, List.cons.injEq] at h
      rw [List.foldl_cons, List.foldl_cons, h.1]
      exact ih h.2 _

lemma sumAmounts_congr {ts' : List TransactionSummary.NormalizedTransaction}
    {ts : List NormalizedTransaction}
    (h : ts'.map (fun t => t.amount) = ts.map (fun t => t.amount)) :
    TransactionSummary.sumAmounts ts' = sumAmounts ts := by
  unfold sumAmounts TransactionSummary.sumAmounts
  rw [foldl_amount_congr h 0]

lemma inferCurrency_congr {ts' : List TransactionSummary.NormalizedTransaction}
    {ts : List NormalizedTransaction}
    (h : ts'.map (fun t => t.currency) = ts.map (fun t => t.currency)) :
    TransactionSummary.inferCurrency ts' = inferCurrency ts := by
  induction ts' generalizing ts with
  | nil =>
    cases ts with
    | nil => rfl
    | cons t r => simp at h
  | cons t' r' ih =>
    cases ts with
    | nil => simp at h
    | cons t r =>
      simp only [List.map_cons, List.cons.injEq] at h
      unfold TransactionSummary.inferCurrency inferCurrency
      by_cases hb : truthyStrOpt t.currency
      · have e1 : List.find?
            (fun txn : TransactionSummary.NormalizedTransaction => truthyStrOpt txn.currency)
            (t' :: r') = some t' :=
          List.find?_cons_of_pos _ (by rw [h.1]; exact hb)
        have e2 : List.find?
            (fun txn : NormalizedTransaction => truthyStrOpt txn.currency)
            (t :: r) = some t :=
          List.find?_cons_of_pos _ hb
        rw [e1, e2]
        exact h.1
      · have e1 : List.find?
            (fun txn : TransactionSummary.NormalizedTransaction => truthyStrOpt txn.currency)
            (t' :: r') = List.find? _ r' :=
          List.find?_cons_of_neg _ (by rw [h.1]; exact hb)
        have e2 : List.find?
            (fun txn : NormalizedTransaction => truthyStrOpt txn.currency)
            (t :: r) = List.find? _ r :=
          List.find?_cons_of_neg _ hb
        rw [e1, e2]
        exact ih h.2

lemma asNumber_jor_nullish {a b : JValue} (hb : b.isNullish = true) :
    asNumber (jor a b) = asNumber a := by
  unfold jor
  by_cases ha : a.isNullish
  · rw [if_pos ha]
    have hbn : asNumber b = none := by
      cases b <;> first | rfl | simp [JValue.isNullish] at hb
    have han : asNumber a = none := by
      cases a <;> first | rfl | simp [JValue.isNullish] at ha
    rw [hbn, han]
  · rw [if_neg ha]

/-- C10 counterexample: the two normalizers disagree on declared
fields. On an entry carrying both an entry-level and a nested-customer
first name, the library copy prefers the entry-level part while the
component copy prefers the nested one (`customerName`); on an entry
whose only email lives in `customerEmail`, the library finds it while
the component (whose chain lacks that candidate) does not; on an
envelope reporting only `meta.total_volume_in_minor`, the library
reports that volume while the component (which reads only
`total_volume`) reports none. -/
theorem component_library_counterexample :
    ((normalizeTransactionsFromOutput (.arr [.obj [("first_name", .str "Ada"),
        ("customer", .obj [("first_name", .str "Bola")])]])).transactions.map
      (fun t => t.customerName) = [some "Ada"] ∧
    (TransactionSummary.normalizeTransactionsFromOutput (.arr [.obj [("first_name", .str "Ada"),
        ("customer", .obj [("first_name", .str "Bola")])]])).transactions.map
      (fun t => t.customerName) = [some "Bola"]) ∧
    ((normalizeTransactionsFromOutput (.arr [.obj [("customerEmail",
        .str "a@b.c")]])).transactions.map
      (fun t => t.customerEmail) = [some "a@b.c"] ∧
    (TransactionSummary.normalizeTransactionsFromOutput (.arr [.obj [("customerEmail",
        .str "a@b.c")]])).transactions.map
      (fun t => t.customerEmail) = [none]) ∧
    ((normalizeTransactionsFromOutput (.obj [("data", .arr []),
        ("meta", .obj [("total_volume_in_minor", .num 700)])])).meta.totalVolume
      = some 700 ∧
    (TransactionSummary.normalizeTransactionsFromOutput (.obj [("data", .arr []),
        ("meta", .obj [("total_volume_in_minor", .num 700)])])).meta.totalVolume
      = none) := by
  exact ⟨⟨by decide, by decide⟩, ⟨by decide, by decide⟩, by decide, by decide⟩

/-- C10 amended: the two normalizers agree on every shared transaction
field except `customerName` and `customerEmail` (`id`, `status`,
`rawStatus`, `failureReason`, `amount`, `currency`, `createdAt`), and on
`meta.total`, `meta.currency` and `meta.message`; they agree on
`meta.totalVolume` whenever the envelope meta carries no
`total_volume_in_minor` field (the component copy lacks that fallback). -/
theorem component_library_agreement :
    ∀ v : JValue,
      ((TransactionSummary.normalizeTransactionsFromOutput v).transactions.map
          TransactionSummary.sharedFields
        = (normalizeTransactionsFromOutput v).transactions.map sharedFields) ∧
      (TransactionSummary.normalizeTransactionsFromOutput v).meta.total
        = (normalizeTransactionsFromOutput v).meta.total ∧
      (TransactionSummary.normalizeTransactionsFromOutput v).meta.currency
        = (normalizeTransactionsFromOutput v).meta.currency ∧
      (TransactionSummary.normalizeTransactionsFromOutput v).meta.message
        = (normalizeTransactionsFromOutput v).meta.message ∧
      (((v.get "meta").get "total_volume_in_minor").isNullish = true →
        (TransactionSummary.normalizeTransactionsFromOutput v).meta.totalVolume
          = (normalizeTransactionsFromOutput v).meta.totalVolume) := by
  intro v
  by_cases hp : isTransactionPayload v
  · have hsh := sharedFields_list_agree (v.get "data").arrElems
    have hlen :
        ((v.get "data").arrElems.filterMap TransactionSummary.normalizeTransaction).length
          = ((v.get "data").arrElems.filterMap normalizeTransaction).length := by
      simpa using congrArg List.length hsh
    refine ⟨?_, ?_, ?_, ?_, ?_⟩
    · simpa only [normalizeTransactionsFromOutput,
        TransactionSummary.normalizeTransactionsFromOutput, hp, eq_self_iff_true,
        if_true] using hsh
    · simp only [normalizeTransactionsFromOutput,
        TransactionSummary.normalizeTransactionsFromOutput, hp, eq_self_iff_true,
        if_true]
      rw [hlen]
    · simp only [normalizeTransactionsFromOutput,
        TransactionSummary.normalizeTransactionsFromOutput, hp, eq_self_iff_true,
        if_true]
      by_cases hb : truthyStrOpt (asString (optGet (getRecord (v.get "meta")) "currency"))
      · rw [if_pos hb, if_pos hb]
      · rw [if_neg hb, if_neg hb]
        exact inferCurrency_congr (map_currency_of_shared hsh)
    · simp [normalizeTransactionsFromOutput,
        TransactionSummary.normalizeTransactionsFromOutput, hp]
    · intro hnull
      simp only [normalizeTransactionsFromOutput,
        TransactionSummary.normalizeTransactionsFromOutput, hp, eq_self_iff_true,
        if_true]
      have hjor : asNumber (jor (optGet (getRecord (v.get "meta")) "total_volume")
            (optGet (getRecord (v.get "meta")) "total_volume_in_minor"))
          = asNumber (optGet (getRecord (v.get "meta")) "total_volume") := by
        apply asNumber_jor_nullish
        rw [optGet_getRecord]
        exact hnull
      rw [hjor]
      by_cases hb : truthyNumOpt (asNumber (optGet (getRecord (v.get "meta")) "total_volume"))
      · rw [if_pos hb, if_pos hb]
      · rw [if_neg hb, if_neg hb]
        exact sumAmounts_congr (map_amount_of_shared hsh)
  · have hsh := sharedFields_list_agree
      ((((extractTransactionArrays v).find? JValue.isArr).getD (.arr [])).arrElems)
    have hlen :
        (((((extractTransactionArrays v).find? JValue.isArr).getD
            (.arr [])).arrElems).filterMap TransactionSummary.normalizeTransaction).length
          = (((((extractTransactionArrays v).find? JValue.isArr).getD
            (.arr [])).arrElems).filterMap normalizeTransaction).length := by
      simpa using congrArg List.length hsh
    refine ⟨?_, ?_, ?_, ?_, ?_⟩
    · simpa only [normalizeTransactionsFromOutput,
        TransactionSummary.normalizeTransactionsFromOutput, hp,
        Bool.false_eq_true, if_false] using hsh
    · simp only [normalizeTransactionsFromOutput,
        TransactionSummary.normalizeTransactionsFromOutput, hp,
        Bool.false_eq_true, if_false]
      rw [hlen]
    · simp only [normalizeTransactionsFromOutput,
        TransactionSummary.normalizeTransactionsFromOutput, hp,
        Bool.false_eq_true, if_false]
      rw [inferCurrency_congr (map_currency_of_shared hsh)]
    · simp [normalizeTransactionsFromOutput,
        TransactionSummary.normalizeTransactionsFromOutput, hp]
    · intro hnull
      simp only [normalizeTransactionsFromOutput,
        TransactionSummary.normalizeTransactionsFromOutput, hp,
        Bool.false_eq_true, if_false]
      by_cases hb : truthyNumOpt (asNumber (jor
          (optGet (getRecord (optGet (getRecord v) "meta")) "total_volume")
          (optGet (getRecord v) "total_volume")))
      · rw [if_pos hb, if_pos hb]
      · rw [if_neg hb, if_neg hb]
        exact sumAmounts_congr (map_amount_of_shared hsh)

/-- Witness for C10's amended theorem at a concrete input with no
minor-unit volume field. -/
theorem component_library_agreement_witness :
    ((JValue.get (.obj []) "meta").get "total_volume_in_minor").isNullish = true ∧
    (TransactionSummary.normalizeTransactionsFromOutput (.obj [])).meta.totalVolume
      = (normalizeTransactionsFromOutput (.obj [])).meta.totalVolume := by
  exact ⟨rfl, (component_library_agreement (.obj [])).2.2.2.2 rfl⟩
